import Mathlib

/-!
Shallow embedding of the study-session and audio-playback engine of
`src/frontend/src/App.jsx` (flashcard app).  JavaScript arrays become
`List`, JS numbers used as counters/ids become `Nat` (or `Int` where the
source can go negative, e.g. drag offsets and the shuffle-position
sentinel `-1`), and the nondeterminism of `Math.random()` is made explicit
by passing a random oracle `rand : Nat → Nat`.  Asynchronous `fetch`
outcomes are reified as a `FetchOutcome` value.
-/

namespace Vodila

/-- Swipe direction, `'left' | 'right'` in `App.jsx` (`handleSwipe`). -/
inductive SwipeDir where
  | left
  | right
deriving DecidableEq

/-- Progress status, `'known' | 'unknown'` strings in `App.jsx`. -/
inductive Status where
  | known
  | unknown
deriving DecidableEq

/-- A card as served by the backend and used in `App.jsx`
(`card.id`, `card.russian`, `card.has_audio`, `card.audio_url`). -/
structure Card where
  id : Nat
  russian : String
  has_audio : Bool
  audio_url : String
deriving DecidableEq

/-- The `progress` state object of `App.jsx`:
`{ known: [], unknown: [], total_known, total_unknown }`. -/
structure Progress where
  known : List Nat
  unknown : List Nat
  total_known : Nat
  total_unknown : Nat
deriving DecidableEq

/-- The `stats` state object of `App.jsx`
(`{ total_cards, known, unknown, not_started }`).
Fields are `Int` because the code subtracts without a floor. -/
structure Stats where
  total_cards : Int
  known : Int
  unknown : Int
  not_started : Int
deriving DecidableEq

/-- One entry of `examResults.details`:
`{ cardId: currentCard.id, known: direction === 'right' }`. -/
structure ExamDetail where
  cardId : Nat
  known : Bool
deriving DecidableEq

/-- The `examResults` state object of `App.jsx`:
`{ correct, incorrect, details }`. -/
structure ExamResults where
  correct : Nat
  incorrect : Nat
  details : List ExamDetail
deriving DecidableEq

/-- Outcome of the `fetch` in `updateCardProgress`: the response was ok
(`res.ok`), the response had a non-success status (`!res.ok`), or the
request threw and was caught by the `catch` block. -/
inductive FetchOutcome where
  | ok
  | httpError
  | threw
deriving DecidableEq

/-- The slice of App-level React state touched by a classification:
`progress`, `stats` (nullable, hence `Option`), `examResults` (nullable). -/
structure AppState where
  progress : Progress
  stats : Option Stats
  examResults : Option ExamResults
deriving DecidableEq

/-- `[...new Set(l)]` in JavaScript: deduplicate keeping the first
occurrence of each element, preserving insertion order. -/
def jsSetDedup : List Nat → List Nat
  | [] => []
  | x :: xs => x :: jsSetDedup (xs.filter (· != x))
termination_by l => l.length
decreasing_by
  simp only [List.length_cons]
  exact Nat.lt_succ_of_le (List.length_filter_le _ xs)

/-- The `setProgress` updater inside `updateCardProgress` (`App.jsx`
lines 207–220): insert `ruleId` into the target list via
`[...new Set([...prev, ruleId])]`, drop it from the opposite list via
`filter(id => id !== ruleId)`, and recompute the totals as lengths. -/
def applyProgress (prev : Progress) (ruleId : Nat) (status : Status) : Progress :=
  let newKnown :=
    if status = .known then jsSetDedup (prev.known ++ [ruleId])
    else prev.known.filter (· != ruleId)
  let newUnknown :=
    if status = .unknown then jsSetDedup (prev.unknown ++ [ruleId])
    else prev.unknown.filter (· != ruleId)
  { known := newKnown
    unknown := newUnknown
    total_known := newKnown.length
    total_unknown := newUnknown.length }

/-- The `setStats` updater inside `updateCardProgress` (`App.jsx`
lines 222–236).  `progress` is the App-level progress state as it was
before the classification (the closure the code reads `wasKnown` /
`wasUnknown` from). -/
def patchStats (prev : Stats) (progress : Progress) (ruleId : Nat) (status : Status) : Stats :=
  let isKnownChange := status = .known
  let wasUnknown := ruleId ∈ progress.unknown
  let wasKnown := ruleId ∈ progress.known
  { prev with
    known := prev.known + (if isKnownChange ∧ ¬wasKnown then 1 else 0)
    unknown := prev.unknown + (if ¬isKnownChange ∧ ¬wasUnknown ∧ ¬wasKnown then 1 else 0)
    not_started := prev.not_started - (if ¬wasKnown ∧ ¬wasUnknown then 1 else 0) }

/-- `updateCardProgress` (`App.jsx` lines 192–241): POST the
classification, and only when the response is ok and the session is not
in exam mode, apply the local progress update and the stats patch.  On a
non-success status or a thrown request nothing local happens (the `catch`
only logs). -/
def updateCardProgress (outcome : FetchOutcome) (isExamMode : Bool) (ruleId : Nat)
    (status : Status) (st : AppState) : AppState :=
  if outcome = .ok ∧ isExamMode = false then
    { st with
      progress := applyProgress st.progress ruleId status
      stats := st.stats.map (fun s => patchStats s st.progress ruleId status) }
  else st

/-- The `setExamResults` updater inside `handleSwipe` (`App.jsx`
lines 251–258): `prev || { correct: 0, incorrect: 0, details: [] }`, then
increment `correct` on a right swipe, `incorrect` on a left swipe, and
append `{ cardId, known: direction === 'right' }`. -/
def examStep (prev : Option ExamResults) (card : Card) (direction : SwipeDir) : ExamResults :=
  let newResults := prev.getD { correct := 0, incorrect := 0, details := [] }
  { correct := if direction = .right then newResults.correct + 1 else newResults.correct
    incorrect := if direction = .left then newResults.incorrect + 1 else newResults.incorrect
    details := newResults.details ++ [{ cardId := card.id, known := direction == .right }] }

/-- The body of the `setTimeout` callback in `handleSwipe` (`App.jsx`
lines 249–266) restricted to the classification effect: exam mode updates
`examResults`; any other mode runs `updateCardProgress` with
`'known'`/`'unknown'` derived from the direction. -/
def swipeTimeout (isExamMode : Bool) (outcome : FetchOutcome) (card : Card)
    (direction : SwipeDir) (st : AppState) : AppState :=
  if isExamMode then
    { st with examResults := some (examStep st.examResults card direction) }
  else
    updateCardProgress outcome isExamMode card.id
      (if direction = .right then .known else .unknown) st

/-- Fold a sequence of presented (card, direction) classifications
through `swipeTimeout`. -/
def runSwipes (isExamMode : Bool) (outcome : FetchOutcome)
    (pairs : List (Card × SwipeDir)) (st : AppState) : AppState :=
  pairs.foldl (fun st p => swipeTimeout isExamMode outcome p.1 p.2 st) st

/-- Fold classification requests `(ruleId, status)` through the local
progress update (`applyProgress`). -/
def applyClassifications (ops : List (Nat × Status)) (p : Progress) : Progress :=
  ops.foldl (fun q op => applyProgress q op.1 op.2) p

/-- The session state relevant to `handleSwipe` re-entrancy: the card
list length, the `currentIndex` React state, the queue of `setTimeout`
callbacks already scheduled (each captured `(currentIndex, direction)` at
invocation), and the classifications that have been recorded by fired
callbacks. -/
structure Session where
  cardsLen : Nat
  currentIndex : Nat
  pending : List (Nat × SwipeDir)
  recorded : List (Nat × SwipeDir)
deriving DecidableEq

/-- Invoking `handleSwipe` (`App.jsx` lines 243–267): the only guard is
`if (currentIndex >= cards.length) return;`, evaluated against the
`currentIndex` state at invocation time.  Otherwise a timeout capturing
the current card index and direction is scheduled; `currentIndex` itself
is not advanced until the timeout fires. -/
def swipeInvoke (direction : SwipeDir) (s : Session) : Session :=
  if s.cardsLen ≤ s.currentIndex then s
  else { s with pending := s.pending ++ [(s.currentIndex, direction)] }

/-- A scheduled `handleSwipe` timeout firing (300 ms later): it records
the classification of the card index it captured and advances
`currentIndex` by one (`setCurrentIndex(prev => prev + 1)`). -/
def timeoutFire (s : Session) : Session :=
  match s.pending with
  | [] => s
  | c :: rest =>
    { s with
      pending := rest
      recorded := s.recorded ++ [c]
      currentIndex := s.currentIndex + 1 }

/-- Events of the single-threaded JS event loop that matter to swipe
re-entrancy: a `handleSwipe` invocation or a scheduled timeout firing. -/
inductive SessionEvent where
  | swipe (direction : SwipeDir)
  | fire
deriving DecidableEq

/-- Run a sequence of session events. -/
def runSession (events : List SessionEvent) (s : Session) : Session :=
  events.foldl
    (fun s e =>
      match e with
      | .swipe d => swipeInvoke d s
      | .fire => timeoutFire s)
    s

/-- Outcome of a drag gesture at touch end. -/
inductive GestureOutcome where
  | commitRight
  | commitLeft
  | cancel
deriving DecidableEq

/-- Result of `handleTouchEnd`: which swipe (if any) was committed, and
the `dragX` visual offset immediately after the handler ran. -/
structure TouchEndResult where
  outcome : GestureOutcome
  dragX : Int
deriving DecidableEq

/-- `handleTouchEnd` (`App.jsx` lines 280–295): with
`diff = touchCurrentX - touchStartX` and `threshold = 100`,
`diff > threshold` commits a right swipe, `diff < -threshold` commits a
left swipe, and otherwise the gesture cancels with `setDragX(0)`.
`dragX` is the visual offset state when the handler runs. -/
def handleTouchEnd (touchStartX touchCurrentX dragX : Int) : TouchEndResult :=
  let diff := touchCurrentX - touchStartX
  let threshold : Int := 100
  if diff > threshold then { outcome := .commitRight, dragX := dragX }
  else if diff < -threshold then { outcome := .commitLeft, dragX := dragX }
  else { outcome := .cancel, dragX := 0 }

/-- The final exam score shown by `StudyView` (`App.jsx` lines 480–488):
`examResults.correct / (examResults.correct + examResults.incorrect)`.
JavaScript division `0 / 0` produces `NaN`; `none` models that `NaN`
value, `some q` a defined numeric score. -/
def examScore (correct incorrect : Nat) : Option ℚ :=
  if correct + incorrect = 0 then none
  else some ((correct : ℚ) / ((correct : ℚ) + (incorrect : ℚ)))

/-- Audio playback mode of `AudioView`: `'single' | 'sequential' | 'shuffle'`. -/
inductive PlayMode where
  | single
  | sequential
  | shuffle
deriving DecidableEq

/-- The `AudioView` state touched by playback control
(`currentIndex`, `currentSource`, `playMode`, `shuffleQueue`,
`shufflePosition`). -/
structure AudioState where
  currentIndex : Nat
  currentSource : String
  playMode : PlayMode
  shuffleQueue : List Nat
  shufflePosition : Int
deriving DecidableEq

/-- `playCard` (`App.jsx` lines 613–625): bounds-check the index against
the playable list, set the current index/source/mode, and when the mode
is not `'shuffle'` clear the shuffle queue and reset the shuffle
position to `-1`. -/
def playCard (playableCards : List Card) (index : Int) (mode : PlayMode)
    (st : AudioState) : AudioState :=
  if index < 0 ∨ (playableCards.length : Int) ≤ index then st
  else
    let card := playableCards.getD index.toNat { id := 0, russian := "", has_audio := false, audio_url := "" }
    let st1 := { st with
      currentIndex := index.toNat
      currentSource := card.audio_url
      playMode := mode }
    if mode ≠ .shuffle then { st1 with shuffleQueue := [], shufflePosition := -1 } else st1

/-- `handlePause` (`App.jsx` lines 644–649): set the play mode to
`'single'` (pausing the `<audio>` element is an external effect outside
the modelled state). -/
def handlePause (st : AudioState) : AudioState :=
  { st with playMode := .single }

/-- The JavaScript array-destructuring swap
`[queue[i], queue[j]] = [queue[j], queue[i]]`: both reads happen on the
original list before either write. -/
def swapList (q : List Nat) (i j : Nat) : List Nat :=
  (q.set i (q.getD j 0)).set j (q.getD i 0)

/-- The Fisher–Yates loop of `buildShuffleQueue`:
`for (let i = queue.length - 1; i > 0; i -= 1)` swaps index `i` with
`j = Math.floor(Math.random() * (i + 1))`.  The oracle `rand` supplies
the random draw at each `i`; `% (i + 1)` reflects that
`Math.floor(Math.random() * (i + 1))` lies in `[0, i]`. -/
def fisherYatesAux (rand : Nat → Nat) : Nat → List Nat → List Nat
  | 0, q => q
  | i + 1, q => fisherYatesAux rand i (swapList q (i + 1) (rand (i + 1) % (i + 2)))

/-- `buildShuffleQueue` (`App.jsx` lines 598–611): build `[0, length)`,
shuffle it in place, and, when a valid `startIndex` is supplied, remove
it from the shuffled queue (`filter(idx => idx !== startIndex)`) and
prepend it.  `startIndex = none` models the JS `null` default. -/
def buildShuffleQueue (rand : Nat → Nat) (length : Nat) (startIndex : Option Int) : List Nat :=
  let queue := fisherYatesAux rand (length - 1) (List.range length)
  match startIndex with
  | none => queue
  | some s =>
    if s < 0 ∨ (length : Int) ≤ s then queue
    else s.toNat :: queue.filter (· != s.toNat)

theorem mem_jsSetDedup : ∀ (l : List Nat) (a : Nat), a ∈ jsSetDedup l ↔ a ∈ l := by
  intro l
  induction l using jsSetDedup.induct with
  | case1 => intro a; rw [jsSetDedup]
  | case2 x xs ih =>
    intro a
    rw [jsSetDedup]
    by_cases h : a = x
    · simp [h]
    · simp [List.mem_cons, h, ih, List.mem_filter]

theorem nodup_jsSetDedup : ∀ l : List Nat, (jsSetDedup l).Nodup := by
  intro l
  induction l using jsSetDedup.induct with
  | case1 => rw [jsSetDedup]; exact List.nodup_nil
  | case2 x xs ih =>
    rw [jsSetDedup]
    refine List.nodup_cons.mpr ⟨?_, ih⟩
    intro hmem
    have := (List.mem_filter.mp ((mem_jsSetDedup _ x).mp hmem)).2
    simp at this

theorem getD_cons_set_perm :
    ∀ (l : List Nat) (k : Nat), k < l.length →
      ∀ x : Nat, (l.getD k 0 :: l.set k x).Perm (x :: l) := by
  intro l
  induction l with
  | nil => intro k hk; simp at hk
  | cons b bs ih =>
    intro k hk x
    cases k with
    | zero => simpa using List.Perm.swap x b bs
    | succ n =>
      have hn : n < bs.length := by simp [List.length_cons] at hk; omega
      have h1 : (bs.getD n 0 :: b :: bs.set n x).Perm (b :: bs.getD n 0 :: bs.set n x) :=
        List.Perm.swap b (bs.getD n 0) (bs.set n x)
      have h2 : (b :: bs.getD n 0 :: bs.set n x).Perm (b :: x :: bs) :=
        (ih n hn x).cons b
      have h3 : (b :: x :: bs).Perm (x :: b :: bs) := List.Perm.swap x b bs
      simpa using h1.trans (h2.trans h3)

theorem swapList_perm :
    ∀ (q : List Nat) (i j : Nat), i < q.length → j < q.length →
      (swapList q i j).Perm q := by
  intro q
  induction q with
  | nil => intro i j hi _; simp at hi
  | cons a as ih =>
    intro i j hi hj
    cases i with
    | zero =>
      cases j with
      | zero => simp [swapList]
      | succ m =>
        have hm : m < as.length := by simp [List.length_cons] at hj; omega
        simpa [swapList] using getD_cons_set_perm as m hm a
    | succ n =>
      cases j with
      | zero =>
        have hn : n < as.length := by simp [List.length_cons] at hi; omega
        simpa [swapList] using getD_cons_set_perm as n hn a
      | succ m =>
        have hn : n < as.length := by simp [List.length_cons] at hi; omega
        have hm : m < as.length := by simp [List.length_cons] at hj; omega
        simpa [swapList] using (ih n m hn hm).cons a

theorem swapList_length (q : List Nat) (i j : Nat) :
    (swapList q i j).length = q.length := by
  simp [swapList]

theorem fisherYatesAux_perm (rand : Nat → Nat) :
    ∀ (i : Nat) (q : List Nat), i < q.length → (fisherYatesAux rand i q).Perm q := by
  intro i
  induction i with
  | zero =>
    intro q _
    rw [fisherYatesAux]
  | succ n ih =>
    intro q h
    rw [fisherYatesAux]
    have hj : rand (n + 1) % (n + 2) < q.length :=
      lt_of_lt_of_le (Nat.mod_lt _ (by omega)) (by omega)
    have hswap := swapList_perm q (n + 1) (rand (n + 1) % (n + 2)) h hj
    have hlen : n < (swapList q (n + 1) (rand (n + 1) % (n + 2))).length := by
      rw [swapList_length]
      omega
    exact (ih _ hlen).trans hswap

theorem buildShuffleQueue_base_perm (rand : Nat → Nat) (length : Nat) :
    (fisherYatesAux rand (length - 1) (List.range length)).Perm (List.range length) := by
  cases length with
  | zero => rw [fisherYatesAux]
  | succ m =>
    apply fisherYatesAux_perm
    simp [List.length_range]

theorem buildShuffleQueue_pinned (rand : Nat → Nat) (length : Nat) (s : Int)
    (h0 : 0 ≤ s) (hlt : s < (length : Int)) :
    buildShuffleQueue rand length (some s)
      = s.toNat ::
          (fisherYatesAux rand (length - 1) (List.range length)).filter (· != s.toNat) := by
  have hc : ¬(s < 0 ∨ (length : Int) ≤ s) := by omega
  simp [buildShuffleQueue, hc]

theorem buildShuffleQueue_perm (rand : Nat → Nat) (length : Nat) (startIndex : Option Int) :
    (buildShuffleQueue rand length startIndex).Perm (List.range length) := by
  have hbase := buildShuffleQueue_base_perm rand length
  match startIndex with
  | none => simpa [buildShuffleQueue] using hbase
  | some s =>
    by_cases hc : s < 0 ∨ (length : Int) ≤ s
    · simpa [buildShuffleQueue, hc] using hbase
    · push_neg at hc
      rw [buildShuffleQueue_pinned rand length s hc.1 hc.2]
      have hnodup : (fisherYatesAux rand (length - 1) (List.range length)).Nodup :=
        hbase.nodup_iff.mpr (List.nodup_range _)
      have hmem : s.toNat ∈ fisherYatesAux rand (length - 1) (List.range length) := by
        apply hbase.mem_iff.mpr
        rw [List.mem_range]
        omega
      rw [← hnodup.erase_eq_filter s.toNat]
      exact (List.perm_cons_erase hmem).symm.trans hbase

/-- C6: for every playable-set size and start index, `buildShuffleQueue`
returns a permutation of `[0, length)` whose length is `length`; when a
valid start index `s` (`0 ≤ s < length`) is supplied, the result is `s`
prepended to the shuffled permutation with `s` filtered out
(removal-and-prepend, not an in-place swap), so its first element is `s`. -/
theorem C6_buildShuffleQueue_spec (rand : Nat → Nat) (length : Nat) (startIndex : Option Int) :
    (buildShuffleQueue rand length startIndex).Perm (List.range length) ∧
    (buildShuffleQueue rand length startIndex).length = length ∧
    ∀ s : Int, startIndex = some s → 0 ≤ s → s < (length : Int) →
      (buildShuffleQueue rand length startIndex).head? = some s.toNat ∧
      buildShuffleQueue rand length startIndex
        = s.toNat ::
            (fisherYatesAux rand (length - 1) (List.range length)).filter (· != s.toNat) := by
  refine ⟨buildShuffleQueue_perm rand length startIndex, ?_, ?_⟩
  · have h := (buildShuffleQueue_perm rand length startIndex).length_eq
    simpa [List.length_range] using h
  · intro s hs h0 hlt
    subst hs
    have hp := buildShuffleQueue_pinned rand length s h0 hlt
    exact ⟨by rw [hp]; rfl, hp⟩

/-- Witness for C6 at `rand = const 0`, `length = 3`, `startIndex = some 1`. -/
theorem C6_buildShuffleQueue_spec_witness :
    (buildShuffleQueue (fun _ => 0) 3 (some 1)).Perm (List.range 3) ∧
    (buildShuffleQueue (fun _ => 0) 3 (some 1)).length = 3 ∧
    (buildShuffleQueue (fun _ => 0) 3 (some 1)).head? = some ((1 : Int)).toNat := by
  obtain ⟨h1, h2, h3⟩ := C6_buildShuffleQueue_spec (fun _ => 0) 3 (some 1)
  obtain ⟨h4, _⟩ := h3 1 rfl (by decide) (by decide)
  exact ⟨h1, h2, h4⟩

theorem applyProgress_known (p : Progress) (ruleId : Nat) :
    applyProgress p ruleId .known
      = { known := jsSetDedup (p.known ++ [ruleId])
          unknown := p.unknown.filter (· != ruleId)
          total_known := (jsSetDedup (p.known ++ [ruleId])).length
          total_unknown := (p.unknown.filter (· != ruleId)).length } := rfl

theorem applyProgress_unknown (p : Progress) (ruleId : Nat) :
    applyProgress p ruleId .unknown
      = { known := p.known.filter (· != ruleId)
          unknown := jsSetDedup (p.unknown ++ [ruleId])
          total_known := (p.known.filter (· != ruleId)).length
          total_unknown := (jsSetDedup (p.unknown ++ [ruleId])).length } := rfl

/-- Well-formedness of the progress lists as sets: no duplicate ids and
mutual exclusion of the two lists. -/
def ProgressWf (p : Progress) : Prop :=
  p.known.Nodup ∧ p.unknown.Nodup ∧ ∀ x, x ∈ p.known → x ∉ p.unknown

theorem applyProgress_wf (p : Progress) (ruleId : Nat) (status : Status)
    (h : ProgressWf p) : ProgressWf (applyProgress p ruleId status) := by
  obtain ⟨hk, hu, hdisj⟩ := h
  cases status with
  | known =>
    rw [applyProgress_known]
    refine ⟨nodup_jsSetDedup _, hu.filter _, ?_⟩
    intro x hx hx2
    have hx' := (mem_jsSetDedup _ x).mp hx
    rw [List.mem_append] at hx'
    have hmem := List.mem_filter.mp hx2
    rcases hx' with h1 | h1
    · exact hdisj x h1 hmem.1
    · have hxr : x = ruleId := by simpa using h1
      subst hxr
      have := hmem.2
      simp at this
  | unknown =>
    rw [applyProgress_unknown]
    refine ⟨hk.filter _, nodup_jsSetDedup _, ?_⟩
    intro x hx hx2
    have hmem := List.mem_filter.mp hx
    have hx2' := (mem_jsSetDedup _ x).mp hx2
    rw [List.mem_append] at hx2'
    rcases hx2' with h1 | h1
    · exact hdisj x hmem.1 h1
    · have hxr : x = ruleId := by simpa using h1
      subst hxr
      have := hmem.2
      simp at this

/-- C7: starting from a well-formed ProgressSet (mutually exclusive,
duplicate-free lists), any sequence of classifications — each of which
inserts the card id into the target list and filters it out of the
opposite list — leaves the two lists duplicate-free and disjoint. -/
theorem C7_classifications_invariant (ops : List (Nat × Status)) (p : Progress)
    (h : ProgressWf p) :
    (applyClassifications ops p).known.Nodup ∧
    (applyClassifications ops p).unknown.Nodup ∧
    ∀ x, x ∈ (applyClassifications ops p).known →
      x ∉ (applyClassifications ops p).unknown := by
  suffices hwf : ProgressWf (applyClassifications ops p) from hwf
  induction ops generalizing p with
  | nil => exact h
  | cons op rest ih =>
    simp only [applyClassifications, List.foldl_cons]
    exact ih _ (applyProgress_wf _ _ _ h)

/-- Witness for C7: classify card 1 known, then card 1 unknown, then
card 2 known, from an empty ProgressSet. -/
theorem C7_classifications_invariant_witness :
    (applyClassifications [(1, .known), (1, .unknown), (2, .known)]
        { known := [], unknown := [], total_known := 0, total_unknown := 0 }).known.Nodup ∧
    (applyClassifications [(1, .known), (1, .unknown), (2, .known)]
        { known := [], unknown := [], total_known := 0, total_unknown := 0 }).unknown.Nodup ∧
    2 ∉ (applyClassifications [(1, .known), (1, .unknown), (2, .known)]
        { known := [], unknown := [], total_known := 0, total_unknown := 0 }).unknown := by
  obtain ⟨h1, h2, h3⟩ :=
    C7_classifications_invariant [(1, .known), (1, .unknown), (2, .known)]
      { known := [], unknown := [], total_known := 0, total_unknown := 0 }
      ⟨List.nodup_nil, List.nodup_nil, by intro x hx; simp at hx⟩
  refine ⟨h1, h2, h3 2 ?_⟩
  simp [applyClassifications, applyProgress, jsSetDedup]

/-- C1 counterexample: with an empty local ProgressSet, classifying card
1 as known while the POST returns a non-success status leaves the local
state completely unchanged — the optimistic update (which would have put
1 into `known`, as the second conjunct shows) is not applied, contrary to
the claim that it happens regardless of the request's outcome. -/
theorem C1_counterexample :
    updateCardProgress .httpError false 1 .known
        { progress := { known := [], unknown := [], total_known := 0, total_unknown := 0 }
          stats := none, examResults := none }
      = { progress := { known := [], unknown := [], total_known := 0, total_unknown := 0 }
          stats := none, examResults := none } ∧
    (applyProgress { known := [], unknown := [], total_known := 0, total_unknown := 0 }
        1 .known).known = [1] := by
  constructor
  · simp [updateCardProgress]
  · simp [applyProgress_known, jsSetDedup]

/-- C1 (amended): in non-exam mode the local optimistic update is gated
on the persist request's success: when the POST responds ok, the card id
is inserted into the target list, removed from the opposite list and the
totals recomputed; when the response has a non-success status or the
request throws, the local ProgressSet and stats are left completely
untouched (so there is never anything to roll back). -/
theorem C1_update_gated_on_ok (outcome : FetchOutcome) (ruleId : Nat) (status : Status)
    (st : AppState) :
    (outcome = .ok →
      (updateCardProgress outcome false ruleId status st).progress
        = applyProgress st.progress ruleId status ∧
      (status = .known →
        ruleId ∈ (updateCardProgress outcome false ruleId status st).progress.known ∧
        ruleId ∉ (updateCardProgress outcome false ruleId status st).progress.unknown) ∧
      (status = .unknown →
        ruleId ∈ (updateCardProgress outcome false ruleId status st).progress.unknown ∧
        ruleId ∉ (updateCardProgress outcome false ruleId status st).progress.known)) ∧
    (outcome ≠ .ok → updateCardProgress outcome false ruleId status st = st) := by
  constructor
  · intro hok
    subst hok
    refine ⟨by simp [updateCardProgress], ?_, ?_⟩
    · intro hs
      subst hs
      constructor
      · simp [updateCardProgress, applyProgress_known, mem_jsSetDedup]
      · simp [updateCardProgress, applyProgress_known, List.mem_filter]
    · intro hs
      subst hs
      constructor
      · simp [updateCardProgress, applyProgress_unknown, mem_jsSetDedup]
      · simp [updateCardProgress, applyProgress_unknown, List.mem_filter]
  · intro hne
    simp [updateCardProgress, hne]

/-- Witness for C1 (amended) at card 7 on both a successful and a thrown
persist request. -/
theorem C1_update_gated_on_ok_witness :
    (updateCardProgress .ok false 7 .known
        { progress := { known := [], unknown := [3], total_known := 0, total_unknown := 1 }
          stats := none, examResults := none }).progress
      = applyProgress { known := [], unknown := [3], total_known := 0, total_unknown := 1 }
          7 .known ∧
    updateCardProgress .threw false 7 .known
        { progress := { known := [], unknown := [3], total_known := 0, total_unknown := 1 }
          stats := none, examResults := none }
      = { progress := { known := [], unknown := [3], total_known := 0, total_unknown := 1 }
          stats := none, examResults := none } := by
  exact ⟨((C1_update_gated_on_ok .ok 7 .known _).1 rfl).1,
         (C1_update_gated_on_ok .threw 7 .known _).2 (by decide)⟩

/-- C2 counterexample: in a one-card session, a second swipe arriving
before the first swipe's 300 ms timeout has fired passes the
invocation-time bounds check (`currentIndex` is still 0) and is not
ignored: both timeouts record a classification of the same card 0 and
the position advances twice (to 2 in a session of length 1). -/
theorem C2_counterexample :
    (runSession [.swipe .right, .swipe .left, .fire, .fire]
        { cardsLen := 1, currentIndex := 0, pending := [], recorded := [] }).recorded
      = [(0, .right), (0, .left)] ∧
    (runSession [.swipe .right, .swipe .left, .fire, .fire]
        { cardsLen := 1, currentIndex := 0, pending := [], recorded := [] }).currentIndex
      = 2 := by
  decide

/-- C2 (amended): the bounds check of `handleSwipe` is evaluated at
invocation time, and a swipe arriving when the session is already
complete (`currentIndex ≥ cards.length`) is ignored; but there is no
guard for the 300 ms delay window — a swipe arriving while a prior
swipe's timeout is still pending is processed against the unchanged
`currentIndex` and schedules a second classification of the same card. -/
theorem C2_swipe_guard (s : Session) (direction : SwipeDir) :
    (s.cardsLen ≤ s.currentIndex → swipeInvoke direction s = s) ∧
    (s.currentIndex < s.cardsLen →
      swipeInvoke direction s
        = { s with pending := s.pending ++ [(s.currentIndex, direction)] }) := by
  constructor
  · intro h
    simp [swipeInvoke, h]
  · intro h
    have h2 : ¬s.cardsLen ≤ s.currentIndex := by omega
    simp [swipeInvoke, h2]

/-- Witness for C2 (amended): a swipe on a complete one-card session is
a no-op; a swipe with a timeout still pending is appended anyway. -/
theorem C2_swipe_guard_witness :
    swipeInvoke .right { cardsLen := 1, currentIndex := 1, pending := [], recorded := [] }
      = { cardsLen := 1, currentIndex := 1, pending := [], recorded := [] } ∧
    swipeInvoke .left
        { cardsLen := 1, currentIndex := 0, pending := [(0, .right)], recorded := [] }
      = { cardsLen := 1, currentIndex := 0
          pending := [(0, .right), (0, .left)], recorded := [] } := by
  constructor
  · exact (C2_swipe_guard _ .right).1 (by decide)
  · have h := (C2_swipe_guard
      { cardsLen := 1, currentIndex := 0, pending := [(0, .right)], recorded := [] } .left).2
      (by decide)
    simpa using h

/-- C3 counterexample: a drag ending with offset exactly 100 cancels
(the code compares strictly: `diff > threshold`), whereas the claim says
`|offset| == 100` commits a right swipe. -/
theorem C3_counterexample :
    (handleTouchEnd 0 100 100).outcome = .cancel ∧
    (handleTouchEnd 0 100 100).outcome ≠ .commitRight ∧
    (handleTouchEnd 0 100 100).dragX = 0 := by
  decide

/-- C3 (amended): a drag-end commits only for a strictly-over-threshold
offset: `offset > 100` commits Right, `offset < -100` commits Left, and
`|offset| ≤ 100` — including exactly 100 — cancels with the visual
offset reset to 0; so 101 commits and 100 (and 99) cancel. -/
theorem C3_threshold_strict (touchStartX touchCurrentX dragX : Int) :
    (100 < touchCurrentX - touchStartX →
      handleTouchEnd touchStartX touchCurrentX dragX
        = { outcome := .commitRight, dragX := dragX }) ∧
    (touchCurrentX - touchStartX < -100 →
      handleTouchEnd touchStartX touchCurrentX dragX
        = { outcome := .commitLeft, dragX := dragX }) ∧
    (-100 ≤ touchCurrentX - touchStartX → touchCurrentX - touchStartX ≤ 100 →
      handleTouchEnd touchStartX touchCurrentX dragX
        = { outcome := .cancel, dragX := 0 }) := by
  refine ⟨?_, ?_, ?_⟩
  · intro h
    simp [handleTouchEnd, h]
  · intro h
    have h2 : ¬(100 < touchCurrentX - touchStartX) := by omega
    simp [handleTouchEnd, h, h2]
  · intro h1 h2
    have h3 : ¬(100 < touchCurrentX - touchStartX) := by omega
    have h4 : ¬(touchCurrentX - touchStartX < -100) := by omega
    simp [handleTouchEnd, h3, h4]

/-- Witness for C3 (amended): offset 101 commits Right, offset 100
cancels, offset -101 commits Left. -/
theorem C3_threshold_strict_witness :
    handleTouchEnd 0 101 7 = { outcome := .commitRight, dragX := 7 } ∧
    handleTouchEnd 0 100 7 = { outcome := .cancel, dragX := 0 } ∧
    handleTouchEnd 0 (-101) 7 = { outcome := .commitLeft, dragX := 7 } := by
  exact ⟨(C3_threshold_strict 0 101 7).1 (by decide),
         (C3_threshold_strict 0 100 7).2.2 (by decide) (by decide),
         (C3_threshold_strict 0 (-101) 7).2.1 (by decide)⟩

/-- C9 counterexample: pausing while a shuffle queue is mid-flight
switches the play mode to `single` but leaves the shuffle queue and
position untouched, contrary to the claim that every switch into
`single` clears them. -/
theorem C9_counterexample :
    (handlePause { currentIndex := 0, currentSource := "", playMode := .shuffle
                   shuffleQueue := [0, 1, 2], shufflePosition := 1 }).playMode = .single ∧
    (handlePause { currentIndex := 0, currentSource := "", playMode := .shuffle
                   shuffleQueue := [0, 1, 2], shufflePosition := 1 }).shuffleQueue = [0, 1, 2] ∧
    (handlePause { currentIndex := 0, currentSource := "", playMode := .shuffle
                   shuffleQueue := [0, 1, 2], shufflePosition := 1 }).shufflePosition = 1 := by
  decide

/-- C9 (amended): switching into a non-shuffle mode through `playCard`
with a valid index clears the shuffle queue and resets the shuffle
position to `-1`; switching into `single` through the pause control
changes only the play mode, leaving any mid-flight shuffle queue and
position untouched. -/
theorem C9_single_switch (playableCards : List Card) (index : Int) (mode : PlayMode)
    (st : AudioState) (hmode : mode ≠ .shuffle) (h0 : 0 ≤ index)
    (hlt : index < (playableCards.length : Int)) :
    (playCard playableCards index mode st).shuffleQueue = [] ∧
    (playCard playableCards index mode st).shufflePosition = -1 ∧
    ∀ st2 : AudioState,
      (handlePause st2).playMode = .single ∧
      (handlePause st2).shuffleQueue = st2.shuffleQueue ∧
      (handlePause st2).shufflePosition = st2.shufflePosition := by
  have hc : ¬(index < 0 ∨ (playableCards.length : Int) ≤ index) := by omega
  refine ⟨?_, ?_, fun st2 => ⟨rfl, rfl, rfl⟩⟩ <;> simp [playCard, hc, hmode]

/-- Witness for C9 (amended): `playCard` into `single` clears a
mid-flight queue; pausing does not. -/
theorem C9_single_switch_witness :
    (playCard [{ id := 1, russian := "", has_audio := true, audio_url := "u" }] 0 .single
        { currentIndex := 0, currentSource := "", playMode := .shuffle
          shuffleQueue := [0], shufflePosition := 0 }).shuffleQueue = [] ∧
    (playCard [{ id := 1, russian := "", has_audio := true, audio_url := "u" }] 0 .single
        { currentIndex := 0, currentSource := "", playMode := .shuffle
          shuffleQueue := [0], shufflePosition := 0 }).shufflePosition = -1 ∧
    (handlePause { currentIndex := 0, currentSource := "x", playMode := .sequential
                   shuffleQueue := [2], shufflePosition := 1 }).shuffleQueue = [2] := by
  obtain ⟨h1, h2, h3⟩ := C9_single_switch
    [{ id := 1, russian := "", has_audio := true, audio_url := "u" }] 0 .single
    { currentIndex := 0, currentSource := "", playMode := .shuffle
      shuffleQueue := [0], shufflePosition := 0 }
    (by decide) (by decide) (by simp)
  exact ⟨h1, h2, (h3 { currentIndex := 0, currentSource := "x", playMode := .sequential
                       shuffleQueue := [2], shufflePosition := 1 }).2.1⟩

/-- C10: invoking `playCard` with a negative or out-of-range index is a
complete no-op: the whole audio state (current index, source, play mode,
shuffle queue, shuffle position) is unchanged. -/
theorem C10_playCard_out_of_range (playableCards : List Card) (index : Int) (mode : PlayMode)
    (st : AudioState) (h : index < 0 ∨ (playableCards.length : Int) ≤ index) :
    playCard playableCards index mode st = st := by
  simp [playCard, h]

/-- Witness for C10 at an empty playable list and index 0. -/
theorem C10_playCard_out_of_range_witness :
    playCard [] 0 .single
        { currentIndex := 0, currentSource := "", playMode := .single
          shuffleQueue := [], shufflePosition := -1 }
      = { currentIndex := 0, currentSource := "", playMode := .single
          shuffleQueue := [], shufflePosition := -1 } :=
  C10_playCard_out_of_range [] 0 .single _ (Or.inr (by simp))

/-- Number of right swipes in a direction sequence. -/
def countRight : List SwipeDir → Nat
  | [] => 0
  | .right :: ds => countRight ds + 1
  | .left :: ds => countRight ds

/-- Number of left swipes in a direction sequence. -/
def countLeft : List SwipeDir → Nat
  | [] => 0
  | .right :: ds => countLeft ds
  | .left :: ds => countLeft ds + 1

theorem countRight_add_countLeft :
    ∀ ds : List SwipeDir, countRight ds + countLeft ds = ds.length := by
  intro ds
  induction ds with
  | nil => rfl
  | cons d rest ih =>
    cases d <;> simp [countRight, countLeft, List.length_cons] <;> omega

/-- Fold the `setExamResults` updater over a sequence of presented
(card, direction) pairs, starting from a possibly-null `examResults`. -/
def runExam (pairs : List (Card × SwipeDir)) (r : Option ExamResults) : Option ExamResults :=
  pairs.foldl (fun acc p => some (examStep acc p.1 p.2)) r

theorem runSwipes_exam_progress_stats (outcome : FetchOutcome) :
    ∀ (pairs : List (Card × SwipeDir)) (st : AppState),
      (runSwipes true outcome pairs st).progress = st.progress ∧
      (runSwipes true outcome pairs st).stats = st.stats := by
  intro pairs
  induction pairs with
  | nil => intro st; exact ⟨rfl, rfl⟩
  | cons p rest ih =>
    intro st
    have hstep : swipeTimeout true outcome p.1 p.2 st
        = { st with examResults := some (examStep st.examResults p.1 p.2) } := by
      simp [swipeTimeout]
    have h1 := ih (swipeTimeout true outcome p.1 p.2 st)
    simp only [runSwipes, List.foldl_cons] at h1 ⊢
    rw [h1.1, h1.2, hstep]
    exact ⟨rfl, rfl⟩

theorem runSwipes_exam_results (outcome : FetchOutcome) :
    ∀ (pairs : List (Card × SwipeDir)) (st : AppState),
      (runSwipes true outcome pairs st).examResults = runExam pairs st.examResults := by
  intro pairs
  induction pairs with
  | nil => intro st; rfl
  | cons p rest ih =>
    intro st
    have hstep : swipeTimeout true outcome p.1 p.2 st
        = { st with examResults := some (examStep st.examResults p.1 p.2) } := by
      simp [swipeTimeout]
    have h1 := ih (swipeTimeout true outcome p.1 p.2 st)
    simp only [runSwipes, List.foldl_cons] at h1 ⊢
    rw [h1, hstep]
    rfl

theorem runExam_some :
    ∀ (pairs : List (Card × SwipeDir)) (r : ExamResults),
      runExam pairs (some r)
        = some { correct := r.correct + countRight (pairs.map Prod.snd)
                 incorrect := r.incorrect + countLeft (pairs.map Prod.snd)
                 details := r.details
                   ++ pairs.map (fun p => { cardId := p.1.id, known := p.2 == .right }) } := by
  intro pairs
  induction pairs with
  | nil => intro r; simp [runExam, countRight, countLeft]
  | cons p rest ih =>
    intro r
    simp only [runExam, List.foldl_cons]
    have h1 := ih (examStep (some r) p.1 p.2)
    simp only [runExam] at h1
    rw [h1]
    obtain ⟨c, d⟩ := p
    cases d with
    | right =>
      simp only [examStep, List.map_cons, countRight, Option.some.injEq, ExamResults.mk.injEq,
        Option.getD_some]
      refine ⟨by simp; omega, by simp [countLeft], by simp⟩
    | left =>
      simp only [examStep, List.map_cons, countRight, countLeft, Option.some.injEq,
        ExamResults.mk.injEq, Option.getD_some]
      refine ⟨by simp [countRight], by simp; omega, by simp⟩

theorem runExam_none_eq (pairs : List (Card × SwipeDir)) (h : pairs ≠ []) :
    runExam pairs none
      = some { correct := countRight (pairs.map Prod.snd)
               incorrect := countLeft (pairs.map Prod.snd)
               details := pairs.map (fun p => { cardId := p.1.id, known := p.2 == .right }) } := by
  match pairs with
  | [] => exact absurd rfl h
  | p :: rest =>
    have h1 : runExam (p :: rest) none = runExam rest (some (examStep none p.1 p.2)) := rfl
    rw [h1, runExam_some]
    obtain ⟨c, d⟩ := p
    cases d <;>
      simp [examStep, countRight, countLeft, ExamResults.mk.injEq] <;>
      omega

theorem countRight_le_length : ∀ ds : List SwipeDir, countRight ds ≤ ds.length := by
  intro ds
  induction ds with
  | nil => exact Nat.le_refl 0
  | cons d rest ih => cases d <;> simp [countRight, List.length_cons] <;> omega

/-- C8: in exam mode, a run of 20 swipes with `k` right swipes produces
`examResults` with `correct = k`, `incorrect = 20 - k`, one
`{cardId, known}` detail entry appended per swipe in order, a score of
`k/20`, and no change whatsoever to the ProgressSet or the global
stats. -/
theorem C8_exam_mode (outcome : FetchOutcome) (pairs : List (Card × SwipeDir)) (st : AppState)
    (h20 : pairs.length = 20) (h0 : st.examResults = none) :
    (runSwipes true outcome pairs st).progress = st.progress ∧
    (runSwipes true outcome pairs st).stats = st.stats ∧
    (runSwipes true outcome pairs st).examResults
      = some { correct := countRight (pairs.map Prod.snd)
               incorrect := 20 - countRight (pairs.map Prod.snd)
               details := pairs.map (fun p => { cardId := p.1.id, known := p.2 == .right }) } ∧
    examScore (countRight (pairs.map Prod.snd)) (20 - countRight (pairs.map Prod.snd))
      = some ((countRight (pairs.map Prod.snd) : ℚ) / 20) := by
  have hne : pairs ≠ [] := by
    intro hnil
    rw [hnil] at h20
    simp at h20
  have hlen : (pairs.map Prod.snd).length = 20 := by
    rw [List.length_map, h20]
  have hsum := countRight_add_countLeft (pairs.map Prod.snd)
  have hkle : countRight (pairs.map Prod.snd) ≤ 20 := by
    have := countRight_le_length (pairs.map Prod.snd)
    omega
  have hleft : countLeft (pairs.map Prod.snd) = 20 - countRight (pairs.map Prod.snd) := by
    omega
  refine ⟨(runSwipes_exam_progress_stats outcome pairs st).1,
          (runSwipes_exam_progress_stats outcome pairs st).2, ?_, ?_⟩
  · rw [runSwipes_exam_results outcome pairs st, h0, runExam_none_eq pairs hne, hleft]
  · have hden : countRight (pairs.map Prod.snd) + (20 - countRight (pairs.map Prod.snd)) = 20 := by
      omega
    simp only [examScore, hden]
    rw [if_neg (by omega)]
    congr 1
    have hcast : ((20 - countRight (pairs.map Prod.snd) : ℕ) : ℚ)
        = 20 - (countRight (pairs.map Prod.snd) : ℚ) := by
      push_cast [Nat.cast_sub hkle]
      ring
    rw [hcast]
    ring_nf

/-- Witness for C8: 20 right swipes on the same card from a fresh
state. -/
theorem C8_exam_mode_witness :
    (runSwipes true .ok
        (List.replicate 20 ({ id := 1, russian := "", has_audio := false, audio_url := "" },
          SwipeDir.right))
        { progress := { known := [], unknown := [], total_known := 0, total_unknown := 0 }
          stats := none, examResults := none }).progress
      = { known := [], unknown := [], total_known := 0, total_unknown := 0 } ∧
    (runSwipes true .ok
        (List.replicate 20 ({ id := 1, russian := "", has_audio := false, audio_url := "" },
          SwipeDir.right))
        { progress := { known := [], unknown := [], total_known := 0, total_unknown := 0 }
          stats := none, examResults := none }).examResults
      = some { correct := 20, incorrect := 0
               details := List.replicate 20 { cardId := 1, known := true } } := by
  obtain ⟨h1, h2, h3, h4⟩ := C8_exam_mode .ok
    (List.replicate 20 ({ id := 1, russian := "", has_audio := false, audio_url := "" },
      SwipeDir.right))
    { progress := { known := [], unknown := [], total_known := 0, total_unknown := 0 }
      stats := none, examResults := none }
    (by simp) rfl
  refine ⟨h1, ?_⟩
  rw [h3]
  decide

/-- C5 counterexample: the final-score computation has no
zero-denominator guard — at `correct = 0, incorrect = 0` it evaluates
`0 / 0`, which in JavaScript is `NaN` (modelled `none`), not a defined
undefined/0% report. -/
theorem C5_counterexample :
    examScore 0 0 = none ∧ examScore 0 0 ≠ some 0 := by
  constructor
  · rfl
  · simp [examScore]

/-- C5 (amended): the displayed final score equals
`correct / (correct + incorrect)` and the code contains no
zero-denominator guard (`examScore 0 0` is the JS `NaN`); however the
exam-results object only exists after at least one classification, and
any exam run of one or more swipes yields `correct + incorrect ≥ 1`, so
every actually displayed score is a defined rational. -/
theorem C5_exam_score (pairs : List (Card × SwipeDir)) (r : ExamResults)
    (hne : pairs ≠ []) (hr : runExam pairs none = some r) :
    0 < r.correct + r.incorrect ∧
    examScore r.correct r.incorrect
      = some ((r.correct : ℚ) / ((r.correct : ℚ) + (r.incorrect : ℚ))) := by
  rw [runExam_none_eq pairs hne] at hr
  have hrec : r = { correct := countRight (pairs.map Prod.snd)
                    incorrect := countLeft (pairs.map Prod.snd)
                    details := pairs.map
                      (fun p => { cardId := p.1.id, known := p.2 == .right }) } :=
    (Option.some_inj.mp hr).symm
  have hpos : 0 < pairs.length := List.length_pos.mpr hne
  have hsum := countRight_add_countLeft (pairs.map Prod.snd)
  have hlen : (pairs.map Prod.snd).length = pairs.length := List.length_map _ _
  have hcpos : 0 < r.correct + r.incorrect := by
    rw [hrec]
    simp only
    omega
  refine ⟨hcpos, ?_⟩
  simp only [examScore]
  rw [if_neg (by omega)]

/-- Witness for C5 (amended): a single right swipe yields a defined
score of 1/1. -/
theorem C5_exam_score_witness :
    0 < 1 + 0 ∧
    examScore 1 0 = some ((1 : ℚ) / ((1 : ℚ) + (0 : ℚ))) := by
  have h := C5_exam_score
    [({ id := 1, russian := "", has_audio := false, audio_url := "" }, SwipeDir.right)]
    { correct := 1, incorrect := 0, details := [{ cardId := 1, known := true }] }
    (by simp) (by decide)
  simpa using h

/-- C4 counterexample: card 5 is in `knownIds` and not in `unknownIds`;
per the claim, classifying it Left must increment the `unknown` bucket by
one (5 was not a member of the corresponding set `unknownIds`), but the
code leaves the bucket unchanged because the card was previously known
(`!wasUnknown && !wasKnown` fails). -/
theorem C4_counterexample :
    5 ∉ (Progress.mk [5] [] 1 0).unknown ∧
    (patchStats (Stats.mk 10 3 2 5) (Progress.mk [5] [] 1 0) 5 .unknown).unknown = 2 ∧
    (patchStats (Stats.mk 10 3 2 5) (Progress.mk [5] [] 1 0) 5 .unknown).unknown ≠ 2 + 1 := by
  decide

/-- C4 (amended): the local stats patch increments `known` by one iff the
direction is Right and the card was not already in `knownIds`; it
increments `unknown` by one iff the direction is Left and the card was
previously in *neither* set (not merely absent from `unknownIds`); it
decrements `not_started` by one iff the card was previously in neither
set.  Classifying the same card twice with the same direction through the
full non-exam update still increments the target bucket at most once in
total. -/
theorem C4_stats_patch (s : Stats) (p : Progress) (ruleId : Nat) (status : Status) :
    ((patchStats s p ruleId status).known = s.known + 1 ↔
        status = .known ∧ ruleId ∉ p.known) ∧
    ((patchStats s p ruleId status).unknown = s.unknown + 1 ↔
        status = .unknown ∧ ruleId ∉ p.unknown ∧ ruleId ∉ p.known) ∧
    ((patchStats s p ruleId status).not_started = s.not_started - 1 ↔
        ruleId ∉ p.known ∧ ruleId ∉ p.unknown) ∧
    (∀ er : Option ExamResults,
      ((updateCardProgress .ok false ruleId .known
          (updateCardProgress .ok false ruleId .known
            { progress := p, stats := some s, examResults := er })).stats).map Stats.known
        = some (s.known + if ruleId ∈ p.known then 0 else 1)) ∧
    (∀ er : Option ExamResults,
      ((updateCardProgress .ok false ruleId .unknown
          (updateCardProgress .ok false ruleId .unknown
            { progress := p, stats := some s, examResults := er })).stats).map Stats.unknown
        = some (s.unknown + if ruleId ∈ p.unknown ∨ ruleId ∈ p.known then 0 else 1)) := by
  refine ⟨?_, ?_, ?_, ?_, ?_⟩
  · by_cases hk : ruleId ∈ p.known <;> cases status <;>
      simp [patchStats, hk]
  · by_cases hk : ruleId ∈ p.known <;> by_cases hu : ruleId ∈ p.unknown <;> cases status <;>
      simp [patchStats, hk, hu]
  · by_cases hk : ruleId ∈ p.known <;> by_cases hu : ruleId ∈ p.unknown <;>
      simp [patchStats, hk, hu] <;> omega
  · intro er
    have hmem1 : ruleId ∈ (applyProgress p ruleId .known).known := by
      rw [applyProgress_known]
      exact (mem_jsSetDedup _ _).mpr (by simp)
    by_cases hk : ruleId ∈ p.known <;>
      simp [updateCardProgress, patchStats, hmem1, hk]
  · intro er
    have hmem1 : ruleId ∈ (applyProgress p ruleId .unknown).unknown := by
      rw [applyProgress_unknown]
      exact (mem_jsSetDedup _ _).mpr (by simp)
    by_cases hk : ruleId ∈ p.known <;> by_cases hu : ruleId ∈ p.unknown <;>
      simp [updateCardProgress, patchStats, hmem1, hk, hu]

/-- Witness for C4 (amended): a first-time Right classification of card
1 increments the `known` bucket from 0 to 1. -/
theorem C4_stats_patch_witness :
    (patchStats { total_cards := 10, known := 0, unknown := 0, not_started := 10 }
        { known := [], unknown := [], total_known := 0, total_unknown := 0 } 1 .known).known
      = 0 + 1 := by
  exact ((C4_stats_patch { total_cards := 10, known := 0, unknown := 0, not_started := 10 }
    { known := [], unknown := [], total_known := 0, total_unknown := 0 } 1 .known).1).mpr
    ⟨rfl, by simp⟩

end Vodila
